import Mathlib

/-!
Verification of the hotel-data merging service (`src/main.py`).

The development shallowly embeds the Python program: Python runtime values
that flow through the merge pipeline are modelled by `PyVal` (`None`,
strings, integers, lists, dicts), `str()` by `pyStr`, and each Python
function of the source by a Lean function of the same name.  Fallible
dynamic operations (subscripting, iteration, keyword construction) return
`Except PyErr`.  Numbers are restricted to integers (the identifiers the
claims concern are ints or strings); `str.strip()`/`.lower()` are modelled
at the character-list level with their ASCII behaviour.
-/

/-- A Python runtime value, as used by the data pipeline. -/
inductive PyVal where
  | none
  | str (s : String)
  | int (n : Int)
  | list (xs : List PyVal)
  | dict (kvs : List (String × PyVal))

/-- Python's `x is None` test. -/
def PyVal.isNone : PyVal → Bool
  | PyVal.none => true
  | _ => false

mutual

/-- Python `repr` of a value (strings for which `repr` adds quotes are
modelled without escaping, faithful for strings free of quotes/escapes). -/
def pyRepr : PyVal → String
  | PyVal.none => "None"
  | PyVal.str s => "'" ++ s ++ "'"
  | PyVal.int n => toString n
  | PyVal.list xs => "[" ++ String.intercalate (", ") (pyReprList xs) ++ "]"
  | PyVal.dict kvs => "\x7b" ++ String.intercalate (", ") (pyReprPairs kvs) ++ "\x7d"

/-- `repr` of each element of a Python list. -/
def pyReprList : List PyVal → List String
  | [] => []
  | x :: xs => pyRepr x :: pyReprList xs

/-- `repr` of each `key: value` entry of a Python dict. -/
def pyReprPairs : List (String × PyVal) → List String
  | [] => []
  | (k, v) :: kvs => ("'" ++ k ++ "': " ++ pyRepr v) :: pyReprPairs kvs

end

/-- Python `str()`: the identity on strings, `repr` otherwise. -/
def pyStr : PyVal → String
  | PyVal.str s => s
  | v => pyRepr v

/-- One iteration of the loop body of `longest_content` (src/main.py,
lines 186-194): `ret` starts as `None`; each candidate `i` first replaces a
`None` tracked value outright, then replaces the tracked value if
`len(str(ret)) < len(content)` where `content` is `str(i)` normalised to
`''` when it equals `'None'` or `'[]'`. -/
def lcStep (ret : PyVal) (i : PyVal) : PyVal :=
  let ret := if ret.isNone then i else ret
  let content := pyStr i
  let content := if content = "None" ∨ content = "[]" then "" else content
  if (pyStr ret).length < content.length then i else ret

/-- `longest_content` (src/main.py, lines 182-195). -/
def longest_content (content_list : List PyVal) (default_value : PyVal) : PyVal :=
  if content_list.length = 0 then default_value
  else content_list.foldl lcStep PyVal.none

/-- Modelled from the spec: the display form of a candidate value — null or
an empty collection counts as the empty string, anything else as its
natural string form. -/
def specDisplay : PyVal → String
  | PyVal.none => ""
  | PyVal.list [] => ""
  | PyVal.dict [] => ""
  | v => pyStr v

/-- Modelled from the spec: the first candidate in group order whose
display form has maximum length. -/
def specLongestWinner (cs : List PyVal) : Option PyVal :=
  cs.find? (fun c => cs.all (fun t => decide ((specDisplay t).length ≤ (specDisplay c).length)))

/-- Modelled from the spec: the first string in a list achieving the
maximum length. -/
def specFirstMaxStr (ss : List String) : Option String :=
  ss.find? (fun s => ss.all (fun t => decide (t.length ≤ s.length)))

/-- The first non-null candidate of a group (or null if all are null):
what `longest_content` returns on a non-empty group all of whose display
forms are empty. -/
def firstNonNone (cs : List PyVal) : PyVal :=
  (cs.find? (fun c => !c.isNone)).getD PyVal.none

/-- The `Amenities` dataclass (src/main.py, lines 19-22), at the point
where it enters the merge stage: both sub-lists are lists of strings.
(`pandas.DataFrame` converts the dataclass rows with `dataclasses.asdict`,
so both keys are always present in each row.) -/
structure Amenities where
  general : List String
  room : List String

/-- `HotelsService.merge_amenities` (src/main.py, lines 203-208): per
sub-field, the concatenation of all rows' lists passed through
`list(set(...))`.  CPython materialises the set in unspecified (hash)
order; the model uses `List.dedup`, and only set-level facts (membership
and duplicate-freeness) are asserted about the result's order. -/
def merge_amenities (df : List Amenities) : Amenities :=
  { general := ((df.map Amenities.general).flatten).dedup
    room := ((df.map Amenities.room).flatten).dedup }

/-- One image entry: the dicts `{'link': ..., 'description': ...}` built
by the suppliers' image-modify helpers. -/
structure ImageRef where
  link : String
  description : PyVal

/-- The `Images` dataclass (src/main.py, lines 25-29). -/
structure Images where
  rooms : List ImageRef
  site : List ImageRef
  amenities : List ImageRef

/-- The dedup loop of `HotelsService.merge_images` (src/main.py, lines
215-220): walk the concatenated list, keeping an element only when its
`link` has not been seen before. -/
def imageDedupGo (seen : List String) : List ImageRef → List ImageRef
  | [] => []
  | e :: rest =>
    if seen.contains e.link then imageDedupGo seen rest
    else e :: imageDedupGo (e.link :: seen) rest

/-- `HotelsService.merge_images` (src/main.py, lines 210-221). -/
def merge_images (df : List Images) : Images :=
  { rooms := imageDedupGo [] ((df.map Images.rooms).flatten)
    site := imageDedupGo [] ((df.map Images.site).flatten)
    amenities := imageDedupGo [] ((df.map Images.amenities).flatten) }

/-- Modelled from the spec: keep the first occurrence of each distinct
`link`, discarding later duplicates. -/
def firstOccByLink : List ImageRef → List ImageRef
  | [] => []
  | e :: r => e :: firstOccByLink (r.filter (fun x => x.link != e.link))
termination_by l => l.length
decreasing_by
  simp only [List.length_cons]
  exact Nat.lt_succ_of_le (List.length_filter_le _ _)

/-- The `Location` dataclass (src/main.py, lines 10-16), at the point
where it enters the merge stage: each sub-field holds the raw value the
adapter stored (a number, a string, or `None`). -/
structure Location where
  lat : PyVal
  lng : PyVal
  address : PyVal
  city : PyVal
  country : PyVal

/-- `HotelsService.merge_location` (src/main.py, lines 223-228):
`longest_content` applied independently to each sub-field's column.
(The rows are `dataclasses.asdict` dicts, so every key is present and the
`else []` arm of the comprehension never fires.) -/
def merge_location (df : List Location) (default_value : PyVal) : Location :=
  { lat := longest_content (df.map Location.lat) default_value
    lng := longest_content (df.map Location.lng) default_value
    address := longest_content (df.map Location.address) default_value
    city := longest_content (df.map Location.city) default_value
    country := longest_content (df.map Location.country) default_value }

/-- One row of the merged `self.hotels` DataFrame, as consumed by
`HotelsService.find`: the filter/sort stage reads only the `id` and
`destination_id` columns; the remaining columns are carried opaquely. -/
structure HRow where
  id : String
  destination_id : String
  payload : PyVal

/-- Python `s.split(',')`: cut at every comma, never collapsing empty
pieces (so the empty string splits to `[""]`). -/
def splitCommaAux (acc : List Char) : List Char → List String
  | [] => [String.mk acc.reverse]
  | c :: rest =>
    if c = ',' then String.mk acc.reverse :: splitCommaAux [] rest
    else splitCommaAux (c :: acc) rest

/-- The argument preprocessing of `HotelsService.find` (src/main.py,
lines 255-258): the literal string `none` means no filter, anything else
is split on commas. -/
def splitFilter (s : String) : List String :=
  if s != "none" then splitCommaAux [] s.data else []

/-- The lookup `{value: pos for pos, value in enumerate(l)}.get(v, 0)`
(src/main.py, lines 256, 259, 268): the position of the last occurrence
of `v` in `l`, or `0` when `v` does not occur. -/
def lastIdxOr0 (l : List String) (v : String) : Nat :=
  (l.enum.foldl (fun acc p => if p.2 == v then some p.1 else acc) Option.none).getD 0

/-- Modelled from the spec: the index of the (first) occurrence of `v` in
the filter list, or `0` when `v` does not appear. -/
def firstIdxOr0 (l : List String) (v : String) : Nat :=
  ((l.enum.find? (fun p => p.2 == v)).map Prod.fst).getD 0

/-- Ascending comparison of Python key tuples `(a, b)`. -/
def keyLE (p q : Nat × Nat) : Prop :=
  p.1 < q.1 ∨ (p.1 = q.1 ∧ p.2 ≤ q.2)

instance (p q : Nat × Nat) : Decidable (keyLE p q) := by
  unfold keyLE; exact inferInstance

/-- The sort key of `HotelsService.find` (src/main.py, line 268). -/
def rowKey (hl dl : List String) (h : HRow) : Nat × Nat :=
  (lastIdxOr0 hl h.id, lastIdxOr0 dl h.destination_id)

/-- The row ordering used by `sorted(...)` in `HotelsService.find`. -/
def findRel (hl dl : List String) (a b : HRow) : Prop :=
  keyLE (rowKey hl dl a) (rowKey hl dl b)

instance (hl dl : List String) (a b : HRow) : Decidable (findRel hl dl a b) := by
  unfold findRel; exact inferInstance

/-- Modelled from the spec: the sort key claimed in the spec, using the
index of the first occurrence in each filter list (`0` when absent). -/
def specRowKey (hl dl : List String) (h : HRow) : Nat × Nat :=
  (firstIdxOr0 hl h.id, firstIdxOr0 dl h.destination_id)

/-- The row filter of `HotelsService.find` (src/main.py, lines 261-264):
`(not hotel_list or id isin hotel_list) & (not destination_list or
destination_id isin destination_list)` evaluated on one row. -/
def passes (hl dl : List String) (h : HRow) : Bool :=
  (hl.isEmpty || hl.contains h.id) && (dl.isEmpty || dl.contains h.destination_id)

/-- `HotelsService.find` (src/main.py, lines 253-270).  When both filter
lists are empty, `not hotel_list or ...` and `not destination_list or ...`
evaluate to the Python bool `True`, so `self.hotels[True & True]` performs
a column lookup with the scalar key `True` and raises `KeyError`; this is
modelled by the `Except.error` branch.  Otherwise the boolean mask keeps
the passing rows in order, `to_json`/`json.loads` round-trips them, and
Python's stable `sorted` (modelled by the stable `List.insertionSort`)
orders them by the key tuple of line 268. -/
def find (hotels : List HRow) (hotel_ids destination_ids : String) :
    Except String (List HRow) :=
  let hotel_list := splitFilter hotel_ids
  let destination_list := splitFilter destination_ids
  if hotel_list = [] ∧ destination_list = [] then Except.error ("KeyError: True")
  else
    let ret := hotels.filter (passes hotel_list destination_list)
    let ret :=
      if hotel_list ≠ [] ∨ destination_list ≠ [] then
        List.insertionSort (findRel hotel_list destination_list) ret
      else ret
    Except.ok ret

/-- Python `str.strip()` (ASCII whitespace): drop leading and trailing
whitespace characters. -/
def pyStrip (cs : List Char) : List Char :=
  ((cs.dropWhile Char.isWhitespace).reverse.dropWhile Char.isWhitespace).reverse

/-- Python `str.lower()` (ASCII letters). -/
def pyLower (cs : List Char) : List Char :=
  cs.map Char.toLower

/-- The character loop of `acme_amenities_modify` (src/main.py, lines
62-66): emit each character, followed by a space whenever a following
character exists, the current one is lowercase and the next is
uppercase. -/
def camelSplitChars : List Char → List Char
  | [] => []
  | [c] => [c]
  | c :: d :: rest =>
    if c.isLower ∧ d.isUpper then c :: ' ' :: camelSplitChars (d :: rest)
    else c :: camelSplitChars (d :: rest)

/-- `acme_amenities_modify` (src/main.py, lines 58-67): strings of length
at most 5 are only stripped and lowercased; longer strings get a space
inserted at each lowercase-to-uppercase boundary first. -/
def acme_amenities_modify (r : String) : String :=
  if r.length ≤ 5 then String.mk (pyLower (pyStrip r.data))
  else String.mk (pyLower (pyStrip (camelSplitChars r.data)))

/-- Modelled from the spec: the camel-case words of a string — a word
ends wherever a lowercase character is immediately followed by an
uppercase one. -/
def camelWordsSpec : List Char → List (List Char)
  | [] => []
  | [c] => [[c]]
  | c :: d :: rest =>
    if c.isLower ∧ d.isUpper then [c] :: camelWordsSpec (d :: rest)
    else
      match camelWordsSpec (d :: rest) with
      | [] => [[c]]
      | w :: ws => (c :: w) :: ws

/-- Modelled from the spec: space-separated concatenation of tokens. -/
def joinWords : List (List Char) → List Char
  | [] => []
  | [w] => w
  | w :: ws => w ++ ' ' :: joinWords ws

/-- The kinds of Python exception the adapters can raise while parsing. -/
inductive PyErr where
  | keyError
  | typeError
  | attrError
  | lookupError
deriving DecidableEq

/-- Python subscripting `obj[key]` with a string key: a value for dicts
that carry the key, `KeyError` for dicts that do not, `TypeError` for
non-dicts. -/
def PyVal.getKey : PyVal → String → Except PyErr PyVal
  | PyVal.dict kvs, k =>
    match kvs.find? (fun kv => kv.1 == k) with
    | some kv => Except.ok kv.2
    | Option.none => Except.error PyErr.keyError
  | _, _ => Except.error PyErr.typeError

/-- Python iteration over a value, for the comprehensions of the
adapters: modelled for lists (the shape the suppliers deliver);
non-lists are rejected. -/
def PyVal.asList : PyVal → Except PyErr (List PyVal)
  | PyVal.list xs => Except.ok xs
  | _ => Except.error PyErr.typeError

/-- A supplier `location` as stored by `parse`: the raw values placed in
the `Location(...)` constructor call, unvalidated. -/
structure ParsedLocation where
  lat : PyVal
  lng : PyVal
  address : PyVal
  city : PyVal
  country : PyVal

/-- A `Hotel` dataclass instance as produced by a supplier's `parse`
(src/main.py, lines 32-41).  The dataclass does not validate its fields,
so scalar fields and the two amenity sub-lists hold raw `PyVal`s exactly
as extracted from the supplier JSON; `destination_id` is always a string
because every adapter wraps it in `str(...)`. -/
structure ParsedHotel where
  id : PyVal
  destination_id : String
  name : PyVal
  location : ParsedLocation
  description : PyVal
  amenities_general : PyVal
  amenities_room : PyVal
  images : Images
  booking_conditions : PyVal

/-- The Acme amenity expression (src/main.py, line 92): `[] if
dto['Facilities'] is None else [acme_amenities_modify(r) for r in
dto['Facilities']]`.  Non-string elements make the cleanup helper raise
(`len`/`str` operations on unsuitable values); they are rejected. -/
def acmeGeneral (fac : PyVal) : Except PyErr (List String) :=
  if fac.isNone then Except.ok []
  else do
    let xs ← fac.asList
    xs.mapM (fun r =>
      match r with
      | PyVal.str s => Except.ok (acme_amenities_modify s)
      | _ => Except.error PyErr.typeError)

/-- The field extractions performed by `Acme.parse` (src/main.py, lines
77-97), in source order.  `lookup` stands for the external
`iso3166.countries.get(...).name` table; a miss raises. -/
structure AcmeParts where
  idv : PyVal
  destv : PyVal
  namev : PyVal
  latv : PyVal
  lngv : PyVal
  addressv : PyVal
  cityv : PyVal
  countryName : String
  descv : PyVal
  general : List String

/-- The extraction half of `Acme.parse`. -/
def acmeParts (lookup : PyVal → Option String) (dto : PyVal) :
    Except PyErr AcmeParts := do
  let idv ← dto.getKey ("Id")
  let destv ← dto.getKey ("DestinationId")
  let namev ← dto.getKey ("Name")
  let latv ← dto.getKey ("Latitude")
  let lngv ← dto.getKey ("Longitude")
  let addressv ← dto.getKey ("Address")
  let cityv ← dto.getKey ("City")
  let countryv ← dto.getKey ("Country")
  let countryName ←
    match lookup countryv with
    | some n => Except.ok n
    | Option.none => Except.error PyErr.lookupError
  let descv ← dto.getKey ("Description")
  let facv ← dto.getKey ("Facilities")
  let general ← acmeGeneral facv
  return ⟨idv, destv, namev, latv, lngv, addressv, cityv, countryName, descv, general⟩

/-- The `Hotel(...)` construction of `Acme.parse`. -/
def mkAcme (p : AcmeParts) : ParsedHotel :=
  { id := p.idv
    destination_id := pyStr p.destv
    name := p.namev
    location :=
      { lat := p.latv, lng := p.lngv, address := p.addressv, city := p.cityv
        country := PyVal.str p.countryName }
    description := p.descv
    amenities_general := PyVal.list (p.general.map PyVal.str)
    amenities_room := PyVal.list []
    images := ⟨[], [], []⟩
    booking_conditions := PyVal.list [] }

/-- `Acme.parse` (src/main.py, lines 77-97). -/
def Acme.parse (lookup : PyVal → Option String) (dto : PyVal) :
    Except PyErr ParsedHotel :=
  (acmeParts lookup dto).map mkAcme

/-- `paperflies_images_modify` (src/main.py, lines 100-108): each entry
must carry `link` and `caption`; the `link` values the claims concern are
strings. -/
def pfModify (imgs : PyVal) : Except PyErr (List ImageRef) := do
  let xs ← imgs.asList
  xs.mapM (fun data => do
    let l ← data.getKey ("link")
    let d ← data.getKey ("caption")
    match l with
    | PyVal.str s => Except.ok { link := s, description := d }
    | _ => Except.error PyErr.typeError)

/-- `patagonia_images_modify` (src/main.py, lines 141-149). -/
def ptModify (imgs : PyVal) : Except PyErr (List ImageRef) := do
  let xs ← imgs.asList
  xs.mapM (fun data => do
    let l ← data.getKey ("url")
    let d ← data.getKey ("description")
    match l with
    | PyVal.str s => Except.ok { link := s, description := d }
    | _ => Except.error PyErr.typeError)

/-- The keyword construction `Images(**{key: modify(value) for key, value
in imgv.items()})` (src/main.py, lines 136 and 177): `imgv` must be a
dict, every key must name an `Images` field, and fields without an entry
take the dataclass default `[]`. -/
def buildImages (modify : PyVal → Except PyErr (List ImageRef)) (imgv : PyVal) :
    Except PyErr Images :=
  match imgv with
  | PyVal.dict kvs => do
    let entries ← kvs.mapM (fun kv => (modify kv.2).map (fun l => (kv.1, l)))
    if entries.all (fun e => e.1 == "rooms" || e.1 == "site" || e.1 == "amenities") then
      Except.ok
        { rooms := ((entries.find? (fun e => e.1 == "rooms")).map Prod.snd).getD []
          site := ((entries.find? (fun e => e.1 == "site")).map Prod.snd).getD []
          amenities := ((entries.find? (fun e => e.1 == "amenities")).map Prod.snd).getD [] }
    else Except.error PyErr.typeError
  | _ => Except.error PyErr.attrError

/-- The field extractions performed by `Paperflies.parse` (src/main.py,
lines 118-138), in source order. -/
structure PfParts where
  idv : PyVal
  destv : PyVal
  namev : PyVal
  addressv : PyVal
  countryv : PyVal
  descv : PyVal
  general : PyVal
  room : PyVal
  imgs : Images
  booking : PyVal

/-- The extraction half of `Paperflies.parse`.  Note that
`dto['amenities']['general']` and `['room']` are stored raw: a null
sub-list is kept as null. -/
def paperfliesParts (dto : PyVal) : Except PyErr PfParts := do
  let idv ← dto.getKey ("hotel_id")
  let destv ← dto.getKey ("destination_id")
  let namev ← dto.getKey ("hotel_name")
  let locv ← dto.getKey ("location")
  let addressv ← locv.getKey ("address")
  let countryv ← locv.getKey ("country")
  let descv ← dto.getKey ("details")
  let amv ← dto.getKey ("amenities")
  let general ← amv.getKey ("general")
  let room ← amv.getKey ("room")
  let imgv ← dto.getKey ("images")
  let imgs ← buildImages pfModify imgv
  let booking ← dto.getKey ("booking_conditions")
  return ⟨idv, destv, namev, addressv, countryv, descv, general, room, imgs, booking⟩

/-- The `Hotel(...)` construction of `Paperflies.parse`. -/
def mkPaperflies (p : PfParts) : ParsedHotel :=
  { id := p.idv
    destination_id := pyStr p.destv
    name := p.namev
    location :=
      { lat := PyVal.none, lng := PyVal.none, address := p.addressv
        city := PyVal.none, country := p.countryv }
    description := p.descv
    amenities_general := p.general
    amenities_room := p.room
    images := p.imgs
    booking_conditions := p.booking }

/-- `Paperflies.parse` (src/main.py, lines 118-138). -/
def Paperflies.parse (dto : PyVal) : Except PyErr ParsedHotel :=
  (paperfliesParts dto).map mkPaperflies

/-- The Patagonia room-amenity expression (src/main.py, line 175): `[] if
dto['amenities'] is None else [r.strip().lower() for r in
dto['amenities']]`. -/
def patagoniaRoom (amv : PyVal) : Except PyErr (List String) :=
  if amv.isNone then Except.ok []
  else do
    let xs ← amv.asList
    xs.mapM (fun r =>
      match r with
      | PyVal.str s => Except.ok (String.mk (pyLower (pyStrip s.data)))
      | _ => Except.error PyErr.attrError)

/-- The field extractions performed by `Patagonia.parse` (src/main.py,
lines 159-179), in source order. -/
structure PtParts where
  idv : PyVal
  destv : PyVal
  namev : PyVal
  latv : PyVal
  lngv : PyVal
  addressv : PyVal
  descv : PyVal
  room : List String
  imgs : Images

/-- The extraction half of `Patagonia.parse`. -/
def patagoniaParts (dto : PyVal) : Except PyErr PtParts := do
  let idv ← dto.getKey ("id")
  let destv ← dto.getKey ("destination")
  let namev ← dto.getKey ("name")
  let latv ← dto.getKey ("lat")
  let lngv ← dto.getKey ("lng")
  let addressv ← dto.getKey ("address")
  let descv ← dto.getKey ("info")
  let amv ← dto.getKey ("amenities")
  let room ← patagoniaRoom amv
  let imgv ← dto.getKey ("images")
  let imgs ← buildImages ptModify imgv
  return ⟨idv, destv, namev, latv, lngv, addressv, descv, room, imgs⟩

/-- The `Hotel(...)` construction of `Patagonia.parse`. -/
def mkPatagonia (p : PtParts) : ParsedHotel :=
  { id := p.idv
    destination_id := pyStr p.destv
    name := p.namev
    location :=
      { lat := p.latv, lng := p.lngv, address := p.addressv
        city := PyVal.none, country := PyVal.none }
    description := p.descv
    amenities_general := PyVal.list []
    amenities_room := PyVal.list (p.room.map PyVal.str)
    images := p.imgs
    booking_conditions := PyVal.list [] }

/-- `Patagonia.parse` (src/main.py, lines 159-179). -/
def Patagonia.parse (dto : PyVal) : Except PyErr ParsedHotel :=
  (patagoniaParts dto).map mkPatagonia

/-- Modelled from the spec: keep the later of two strings only when it is strictly longer. -/
def strKeep (a b : String) : String := if a.length < b.length then b else a

/-- A fixed country table used to instantiate the adapters' external lookup in witnesses. -/
def lookupStub : PyVal → Option String := fun _ => some ("Singapore")

/-- A Paperflies raw record whose `amenities.general` is null (all required fields present). -/
def dtoPfNull : PyVal :=
  PyVal.dict [("hotel_id", PyVal.str ("1")), ("destination_id", PyVal.int 5),
    ("hotel_name", PyVal.str ("H")),
    ("location", PyVal.dict [("address", PyVal.none), ("country", PyVal.none)]),
    ("details", PyVal.none),
    ("amenities", PyVal.dict [("general", PyVal.none), ("room", PyVal.list [])]),
    ("images", PyVal.dict []),
    ("booking_conditions", PyVal.list [])]

/-- An Acme raw record with a null `Facilities` collection. -/
def dtoAcme0 : PyVal :=
  PyVal.dict [("Id", PyVal.str ("1")), ("DestinationId", PyVal.int 5),
    ("Name", PyVal.str ("A")), ("Latitude", PyVal.none), ("Longitude", PyVal.none),
    ("Address", PyVal.none), ("City", PyVal.none), ("Country", PyVal.str ("SG")),
    ("Description", PyVal.none), ("Facilities", PyVal.none)]

/-- A Patagonia raw record with a null `amenities` collection. -/
def dtoPata0 : PyVal :=
  PyVal.dict [("id", PyVal.str ("1")), ("destination", PyVal.int 5),
    ("name", PyVal.str ("A")), ("lat", PyVal.none), ("lng", PyVal.none),
    ("address", PyVal.none), ("info", PyVal.none), ("amenities", PyVal.none),
    ("images", PyVal.dict [])]

/-- The record `Acme.parse` produces from `dtoAcme0`. -/
def acmeH0 : ParsedHotel :=
  mkAcme ⟨PyVal.str ("1"), PyVal.int 5, PyVal.str ("A"), PyVal.none, PyVal.none,
    PyVal.none, PyVal.none, "Singapore", PyVal.none, []⟩

/-- The record `Patagonia.parse` produces from `dtoPata0`. -/
def pataH0 : ParsedHotel :=
  mkPatagonia ⟨PyVal.str ("1"), PyVal.int 5, PyVal.str ("A"), PyVal.none, PyVal.none,
    PyVal.none, PyVal.none, [], ⟨[], [], []⟩⟩

/-- The record `Paperflies.parse` produces from `dtoPfNull`. -/
def pfH0 : ParsedHotel :=
  mkPaperflies ⟨PyVal.str ("1"), PyVal.int 5, PyVal.str ("H"), PyVal.none, PyVal.none,
    PyVal.none, PyVal.none, PyVal.list [], ⟨[], [], []⟩, PyVal.list []⟩

theorem lc_str_none (c : String) (d : PyVal) :
    longest_content [PyVal.str c, PyVal.none] d = PyVal.str c := by
  simp only [longest_content, List.length_cons, List.length_nil, List.foldl, lcStep,
    PyVal.isNone, pyStr, pyRepr]
  norm_num

theorem lc_none_str (k : String) (d : PyVal) :
    longest_content [PyVal.none, PyVal.str k] d = PyVal.str k := by
  simp only [longest_content, List.length_cons, List.length_nil, List.foldl, lcStep,
    PyVal.isNone, pyStr, pyRepr]
  norm_num

theorem firstOccByLink_nil : firstOccByLink [] = [] := by
  simp [firstOccByLink]

theorem firstOccByLink_cons (e : ImageRef) (r : List ImageRef) :
    firstOccByLink (e :: r) = e :: firstOccByLink (r.filter (fun x => x.link != e.link)) := by
  simp [firstOccByLink]

theorem imageDedupGo_eq_firstOcc (l : List ImageRef) :
    ∀ seen : List String,
      imageDedupGo seen l = firstOccByLink (l.filter (fun x => !(seen.contains x.link))) := by
  induction l with
  | nil => intro seen; simp [imageDedupGo, firstOccByLink_nil]
  | cons e rest ih =>
    intro seen
    cases hc : seen.contains e.link with
    | true =>
      simp only [imageDedupGo, hc, if_true, List.filter_cons, Bool.not_true,
        Bool.false_eq_true, if_false]
      exact ih seen
    | false =>
      simp only [imageDedupGo, hc, if_false, List.filter_cons, Bool.not_false, if_true]
      rw [firstOccByLink_cons, List.filter_filter, ih (e.link :: seen)]
      simp only [Bool.false_eq_true, if_false]
      congr 1
      congr 1
      apply List.filter_congr
      intro x _
      simp only [List.contains_cons, Bool.not_or, bne]

theorem imageDedup_eq_firstOcc (l : List ImageRef) :
    imageDedupGo [] l = firstOccByLink l := by
  rw [imageDedupGo_eq_firstOcc l []]
  congr 1
  simp

theorem mem_firstOccByLink {x : ImageRef} {l : List ImageRef} :
    x ∈ firstOccByLink l → x ∈ l := by
  induction l using firstOccByLink.induct with
  | case1 => simp [firstOccByLink_nil]
  | case2 e r ih =>
    rw [firstOccByLink_cons]
    intro hx
    rcases List.mem_cons.mp hx with h | h
    · exact h ▸ List.mem_cons_self _ _
    · exact List.mem_cons_of_mem _ (List.mem_of_mem_filter (ih h))

theorem firstOcc_links_nodup (l : List ImageRef) :
    ((firstOccByLink l).map ImageRef.link).Nodup := by
  induction l using firstOccByLink.induct with
  | case1 => simp [firstOccByLink_nil]
  | case2 e r ih =>
    rw [firstOccByLink_cons, List.map_cons]
    refine List.Nodup.cons ?_ ih
    intro hmem
    rcases List.mem_map.mp hmem with ⟨x, hx, hlink⟩
    have hf := mem_firstOccByLink hx
    have := (List.mem_filter.mp hf).2
    simp [bne, hlink] at this

theorem lcStep_of_empty (acc c : PyVal) (hacc : acc.isNone = false)
    (hc : pyStr c = "" ∨ pyStr c = "None" ∨ pyStr c = "[]") :
    lcStep acc c = acc := by
  have hdisp : (if pyStr c = "None" ∨ pyStr c = "[]" then "" else pyStr c) = "" := by
    rcases hc with h | h | h
    · rw [if_neg (by rw [h]; decide), h]
    · rw [if_pos (Or.inl h)]
    · rw [if_pos (Or.inr h)]
  simp only [lcStep, hacc, Bool.false_eq_true, if_false, hdisp]
  simp

theorem lcStep_none_any (c : PyVal) : lcStep PyVal.none c = c := by
  simp only [lcStep, PyVal.isNone, if_true]
  simp

theorem lc_fold_const (cs : List PyVal) :
    ∀ acc : PyVal, acc.isNone = false →
      (∀ c ∈ cs, pyStr c = "" ∨ pyStr c = "None" ∨ pyStr c = "[]") →
      cs.foldl lcStep acc = acc := by
  induction cs with
  | nil => intro acc _ _; rfl
  | cons c rest ih =>
    intro acc hacc hall
    have hstep : lcStep acc c = acc :=
      lcStep_of_empty acc c hacc (hall c (List.mem_cons_self _ _))
    rw [List.foldl_cons, hstep]
    exact ih acc hacc (fun x hx => hall x (List.mem_cons_of_mem _ hx))

theorem lc_fold_none (cs : List PyVal) :
    (∀ c ∈ cs, pyStr c = "" ∨ pyStr c = "None" ∨ pyStr c = "[]") →
    cs.foldl lcStep PyVal.none = firstNonNone cs := by
  induction cs with
  | nil => intro _; rfl
  | cons c rest ih =>
    intro hall
    have hrest : ∀ x ∈ rest, pyStr x = "" ∨ pyStr x = "None" ∨ pyStr x = "[]" :=
      fun x hx => hall x (List.mem_cons_of_mem _ hx)
    rw [List.foldl_cons, lcStep_none_any c]
    cases hn : c.isNone with
    | false =>
      rw [lc_fold_const rest c hn hrest]
      unfold firstNonNone
      rw [List.find?_cons_of_pos _ (by rw [hn]; rfl)]
      rfl
    | true =>
      have hcn : c = PyVal.none := by
        cases c
        · rfl
        all_goals simp [PyVal.isNone] at hn
      subst hcn
      rw [ih hrest]
      unfold firstNonNone
      rw [List.find?_cons_of_neg _ (by decide)]

theorem findPredCongr {α : Type} {p q : α → Bool} :
    ∀ l : List α, (∀ x ∈ l, p x = q x) → l.find? p = l.find? q := by
  intro l
  induction l with
  | nil => intro _; rfl
  | cons a l ih =>
    intro h
    rw [List.find?_cons, List.find?_cons, h a (List.mem_cons_self _ _)]
    cases q a
    · exact ih (fun x hx => h x (List.mem_cons_of_mem _ hx))
    · rfl

theorem findConsNeg {α : Type} (p : α → Bool) (a : α) (l : List α) (h : ¬ p a = true) :
    List.find? p (a :: l) = List.find? p l :=
  List.find?_cons_of_neg l h

theorem findConsPos {α : Type} (p : α → Bool) (a : α) (l : List α) (h : p a = true) :
    List.find? p (a :: l) = some a :=
  List.find?_cons_of_pos l h

theorem specFirstMax_foldl :
    ∀ (l : List String) (a : String), specFirstMaxStr (a :: l) = some (l.foldl strKeep a) := by
  intro l
  induction l with
  | nil =>
    intro a
    rw [List.foldl_nil]
    unfold specFirstMaxStr
    rw [List.find?_cons_of_pos]
    simp
  | cons b l' ih =>
    intro a
    rw [List.foldl_cons]
    by_cases hab : a.length < b.length
    · rw [show strKeep a b = b from if_pos hab, ← ih b]
      unfold specFirstMaxStr
      have hPa : ¬ (((a :: b :: l').all fun t => decide (t.length ≤ a.length)) = true) := by
        simp only [List.all_eq_true, decide_eq_true_eq]
        intro hall
        exact absurd (hall b (List.mem_cons_of_mem _ (List.mem_cons_self _ _))) (by omega)
      rw [findConsNeg (fun s => (a :: b :: l').all fun t => decide (t.length ≤ s.length)) a (b :: l') hPa]
      apply findPredCongr
      intro x hx
      show ((a :: b :: l').all fun t => decide (t.length ≤ x.length)) =
        ((b :: l').all fun t => decide (t.length ≤ x.length))
      rw [List.all_cons]
      cases hQ : (b :: l').all (fun t => decide (t.length ≤ x.length))
      · simp
      · have hbx : b.length ≤ x.length := by
          have := (List.all_eq_true.mp hQ) b (List.mem_cons_self _ _)
          simpa using this
        simp only [Bool.and_true, decide_eq_true_eq]
        omega
    · rw [show strKeep a b = a from if_neg hab, ← ih a]
      unfold specFirstMaxStr
      have hba : b.length ≤ a.length := by omega
      by_cases hRa : ∀ x ∈ l', x.length ≤ a.length
      · have hPa : ((a :: b :: l').all fun t => decide (t.length ≤ a.length)) = true := by
          simp only [List.all_eq_true, decide_eq_true_eq]
          intro x hx
          rcases List.mem_cons.mp hx with rfl | hx'
          · omega
          rcases List.mem_cons.mp hx' with rfl | hx''
          · omega
          · exact hRa x hx''
        have hQa : ((a :: l').all fun t => decide (t.length ≤ a.length)) = true := by
          simp only [List.all_eq_true, decide_eq_true_eq]
          intro x hx
          rcases List.mem_cons.mp hx with rfl | hx'
          · omega
          · exact hRa x hx'
        rw [findConsPos (fun s => (a :: b :: l').all fun t => decide (t.length ≤ s.length)) a (b :: l') hPa]
        rw [findConsPos (fun s => (a :: l').all fun t => decide (t.length ≤ s.length)) a l' hQa]
      · push_neg at hRa
        obtain ⟨w, hw, hwlen⟩ := hRa
        have hPa : ¬ (((a :: b :: l').all fun t => decide (t.length ≤ a.length)) = true) := by
          simp only [List.all_eq_true, decide_eq_true_eq]
          intro hall
          have := hall w (List.mem_cons_of_mem _ (List.mem_cons_of_mem _ hw))
          omega
        have hPb : ¬ (((a :: b :: l').all fun t => decide (t.length ≤ b.length)) = true) := by
          simp only [List.all_eq_true, decide_eq_true_eq]
          intro hall
          have := hall w (List.mem_cons_of_mem _ (List.mem_cons_of_mem _ hw))
          omega
        have hQa : ¬ (((a :: l').all fun t => decide (t.length ≤ a.length)) = true) := by
          simp only [List.all_eq_true, decide_eq_true_eq]
          intro hall
          have := hall w (List.mem_cons_of_mem _ hw)
          omega
        rw [findConsNeg (fun s => (a :: b :: l').all fun t => decide (t.length ≤ s.length)) a (b :: l') hPa]
        rw [findConsNeg (fun s => (a :: b :: l').all fun t => decide (t.length ≤ s.length)) b l' hPb]
        rw [findConsNeg (fun s => (a :: l').all fun t => decide (t.length ≤ s.length)) a l' hQa]
        apply findPredCongr
        intro x hx
        show ((a :: b :: l').all fun t => decide (t.length ≤ x.length)) =
          ((a :: l').all fun t => decide (t.length ≤ x.length))
        rw [List.all_cons, List.all_cons, List.all_cons]
        by_cases hax : a.length ≤ x.length
        · have hbx : b.length ≤ x.length := le_trans hba hax
          simp [hax, hbx]
        · simp [hax]

theorem lcStep_none_str (s : String) (hs : ¬(s = "None" ∨ s = "[]")) :
    lcStep PyVal.none (PyVal.str s) = PyVal.str s := by
  simp only [lcStep, PyVal.isNone, if_true, pyStr]
  rw [if_neg hs]
  simp

theorem lcStep_str (a s : String) (hs : ¬(s = "None" ∨ s = "[]")) :
    lcStep (PyVal.str a) (PyVal.str s) = PyVal.str (strKeep a s) := by
  simp only [lcStep, PyVal.isNone, Bool.false_eq_true, if_false, pyStr, strKeep]
  rw [if_neg hs]
  split <;> rfl

theorem lc_fold_str (l : List String) :
    ∀ a : String, (∀ s ∈ l, ¬(s = "None" ∨ s = "[]")) →
      (l.map PyVal.str).foldl lcStep (PyVal.str a) = PyVal.str (l.foldl strKeep a) := by
  induction l with
  | nil => intro a _; rfl
  | cons s l ih =>
    intro a h
    rw [List.map_cons, List.foldl_cons, List.foldl_cons,
      lcStep_str a s (h s (List.mem_cons_self _ _))]
    exact ih _ (fun x hx => h x (List.mem_cons_of_mem _ hx))

theorem exceptMapOk {α β : Type} (f : α → β) (m : Except PyErr α) (b : β)
    (h : m.map f = Except.ok b) : ∃ a, m = Except.ok a ∧ b = f a := by
  cases m with
  | error e => simp [Except.map] at h
  | ok a => exact ⟨a, rfl, by simpa [Except.map] using h.symm⟩

theorem camelWordsSpec_ne_nil (c : Char) (rest : List Char) :
    camelWordsSpec (c :: rest) ≠ [] := by
  cases rest with
  | nil => simp [camelWordsSpec]
  | cons d r =>
    rw [camelWordsSpec]
    split
    · simp
    · cases h : camelWordsSpec (d :: r) <;> simp

theorem camelSplit_join : ∀ cs : List Char, camelSplitChars cs = joinWords (camelWordsSpec cs) := by
  intro cs
  induction cs with
  | nil => rfl
  | cons c rest ih =>
    cases rest with
    | nil => rfl
    | cons d r =>
      rw [camelSplitChars, camelWordsSpec]
      split
      · have hne := camelWordsSpec_ne_nil d r
        cases h : camelWordsSpec (d :: r) with
        | nil => exact absurd h hne
        | cons w ws =>
          rw [ih, h]
          show c :: ' ' :: joinWords (w :: ws) = joinWords ([c] :: w :: ws)
          rfl
      · have hne := camelWordsSpec_ne_nil d r
        cases h : camelWordsSpec (d :: r) with
        | nil => exact absurd h hne
        | cons w ws =>
          rw [ih, h]
          cases ws with
          | nil => rfl
          | cons w2 ws2 => rfl

theorem pyLower_joinWords : ∀ ws : List (List Char),
    pyLower (joinWords ws) = joinWords (ws.map (List.map Char.toLower)) := by
  intro ws
  induction ws with
  | nil => rfl
  | cons w ws ih =>
    cases ws with
    | nil => rfl
    | cons w2 ws2 =>
      show pyLower (w ++ ' ' :: joinWords (w2 :: ws2)) =
        joinWords ((w :: w2 :: ws2).map (List.map Char.toLower))
      rw [show joinWords ((w :: w2 :: ws2).map (List.map Char.toLower)) =
        w.map Char.toLower ++ ' ' :: joinWords ((w2 :: ws2).map (List.map Char.toLower)) from rfl]
      rw [← ih]
      simp only [pyLower, List.map_append, List.map_cons]
      rw [show Char.toLower ' ' = ' ' from rfl]

theorem camelSplit_head (c : Char) (rest : List Char) :
    ∃ t, camelSplitChars (c :: rest) = c :: t := by
  cases rest with
  | nil => exact ⟨[], rfl⟩
  | cons d r =>
    rw [camelSplitChars]
    split
    · exact ⟨_, rfl⟩
    · exact ⟨_, rfl⟩

theorem camelSplit_getLast : ∀ cs : List Char, cs ≠ [] →
    (camelSplitChars cs).getLast? = cs.getLast? := by
  intro cs
  induction cs with
  | nil => intro h; exact absurd rfl h
  | cons c rest ih =>
    intro _
    cases rest with
    | nil => rfl
    | cons d r =>
      obtain ⟨t, ht⟩ := camelSplit_head d r
      rw [camelSplitChars]
      split
      · rw [ht]
        simp only [List.getLast?_cons_cons]
        rw [← ht]
        exact ih (by simp)
      · rw [ht]
        simp only [List.getLast?_cons_cons]
        rw [← ht]
        exact ih (by simp)

theorem alphaNotWS (c : Char) (h : c.isAlpha = true) : c.isWhitespace = false := by
  by_contra hw
  rw [Bool.not_eq_false] at hw
  simp only [Char.isWhitespace, Bool.or_eq_true, decide_eq_true_eq] at hw
  rcases hw with ((hc | hc) | hc) | hc <;> subst hc <;> exact absurd h (by decide)

theorem pyStrip_eq_self (cs : List Char)
    (h1 : ∀ c, cs.head? = some c → c.isWhitespace = false)
    (h2 : ∀ c, cs.getLast? = some c → c.isWhitespace = false) :
    pyStrip cs = cs := by
  cases cs with
  | nil => rfl
  | cons a t =>
    unfold pyStrip
    rw [List.dropWhile_cons, if_neg (by rw [h1 a rfl]; simp)]
    cases hrev : (a :: t).reverse with
    | nil => exact absurd hrev (by simp)
    | cons b t2 =>
      have hb : (a :: t).getLast? = some b := by
        rw [← List.head?_reverse, hrev]; rfl
      rw [List.dropWhile_cons, if_neg (by rw [h2 b hb]; simp)]
      rw [← hrev, List.reverse_reverse]

theorem acmeParts_destv (lookup : PyVal → Option String) (dto : PyVal) (p : AcmeParts)
    (hp : acmeParts lookup dto = Except.ok p) :
    dto.getKey ("DestinationId") = Except.ok p.destv := by
  unfold acmeParts at hp
  simp only [bind, Except.bind] at hp
  repeat' split at hp
  all_goals first
    | simp at hp
    | (injection hp with hp; subst hp; assumption)

theorem paperfliesParts_destv (dto : PyVal) (p : PfParts)
    (hp : paperfliesParts dto = Except.ok p) :
    dto.getKey ("destination_id") = Except.ok p.destv := by
  unfold paperfliesParts at hp
  simp only [bind, Except.bind] at hp
  repeat' split at hp
  all_goals first
    | simp at hp
    | (injection hp with hp; subst hp; assumption)

theorem patagoniaParts_destv (dto : PyVal) (p : PtParts)
    (hp : patagoniaParts dto = Except.ok p) :
    dto.getKey ("destination") = Except.ok p.destv := by
  unfold patagoniaParts at hp
  simp only [bind, Except.bind] at hp
  repeat' split at hp
  all_goals first
    | simp at hp
    | (injection hp with hp; subst hp; assumption)

/-- C1 (amended): the claim as stated fails (see the counterexample); what
holds is: when every candidate is a string other than the literals
`"None"` and `"[]"`, `longest_content` returns the first candidate in
group order achieving the maximum display-form length — so reordering
equal-length candidates does not change the winner and a strictly longer
candidate always wins.  In general the tracked candidate is compared by
its raw `str()` form (null counts as length 4, an empty list as length
2), and a null tracked value is replaced by the next candidate
unconditionally. -/
theorem c1_longest_wins_amended (ss : List String) (d : PyVal) (w : String)
    (hok : ∀ s ∈ ss, ¬(s = "None" ∨ s = "[]"))
    (hw : specFirstMaxStr ss = some w) :
    longest_content (ss.map PyVal.str) d = PyVal.str w := by
  cases ss with
  | nil => simp [specFirstMaxStr] at hw
  | cons a l =>
    rw [specFirstMax_foldl l a] at hw
    injection hw with hw
    subst hw
    rw [longest_content, if_neg (by simp)]
    rw [List.map_cons, List.foldl_cons, lcStep_none_str a (hok a (List.mem_cons_self _ _))]
    exact lc_fold_str l a (fun x hx => hok x (List.mem_cons_of_mem _ hx))

/-- C1 (counterexample): with candidates `[[], "a"]` the code keeps the
empty list although the display form of `"a"` is strictly longer, and
with `["ab", "None"]` it keeps `"ab"` although the display form of the
string `"None"` has maximum length — in both groups the merged value is
not the first candidate of maximum display-form length claimed by the
spec. -/
theorem c1_longest_wins_counterexample :
    (longest_content [PyVal.list [], PyVal.str ("a")] PyVal.none = PyVal.list [] ∧
     specLongestWinner [PyVal.list [], PyVal.str ("a")] = some (PyVal.str ("a")) ∧
     PyVal.list [] ≠ PyVal.str ("a")) ∧
    (longest_content [PyVal.str ("ab"), PyVal.str ("None")] PyVal.none = PyVal.str ("ab") ∧
     specLongestWinner [PyVal.str ("ab"), PyVal.str ("None")] = some (PyVal.str ("None")) ∧
     PyVal.str ("ab") ≠ PyVal.str ("None")) :=
  ⟨⟨rfl, rfl, fun h => PyVal.noConfusion h⟩,
   ⟨rfl, rfl, fun h => by injection h with h2; exact absurd h2 (by decide)⟩⟩

/-- C1 (witness): the amended theorem applied to the all-string group
`["ab", "abc", "xyz"]`, whose first maximum-length candidate is
`"abc"`. -/
theorem c1_longest_wins_witness :
    (∀ s ∈ ["ab", "abc", "xyz"], ¬(s = "None" ∨ s = "[]")) ∧
    specFirstMaxStr ["ab", "abc", "xyz"] = some ("abc") ∧
    longest_content (["ab", "abc", "xyz"].map PyVal.str) PyVal.none = PyVal.str ("abc") :=
  ⟨by decide, rfl, c1_longest_wins_amended _ PyVal.none _ (by decide) rfl⟩

/-- C2 (amended): for an empty group `longest_content` returns the supplied
default, and for a non-empty group whose candidates all have an empty
display form as the code computes it — `str(c)` equal to `''`, `'None'`
or `'[]'`, i.e. null, the empty list, the empty string or those two
literal strings — it returns the first non-null candidate (or null when
all are null): always one of the candidates, never a type default.  An
empty dict, although an empty collection whose display form the spec
deems empty, is not normalised by the code (`str({})` is a two-character
string), so the group `["", {}]` merges to `{}` and not to its first
non-null candidate `""`. -/
theorem c2_empty_default_amended (cs : List PyVal) (d : PyVal) :
    (longest_content [] d = d) ∧
    (cs ≠ [] → (∀ c ∈ cs, pyStr c = "" ∨ pyStr c = "None" ∨ pyStr c = "[]") →
      longest_content cs d = firstNonNone cs) ∧
    (longest_content [PyVal.str (""), PyVal.dict []] d = PyVal.dict [] ∧
      firstNonNone [PyVal.str (""), PyVal.dict []] = PyVal.str ("")) := by
  refine ⟨rfl, fun hne hall => ?_, rfl, rfl⟩
  rw [longest_content, if_neg (by simpa using hne)]
  exact lc_fold_none cs hall

/-- C2 (counterexample): a group holding a single null candidate (for a
text field, whose type default the claim says is the empty string)
merges to the null candidate itself — an empty-display candidate, not
the default. -/
theorem c2_empty_default_counterexample :
    longest_content [PyVal.none] (PyVal.str ("")) = PyVal.none ∧
    PyVal.none ≠ PyVal.str ("") ∧ PyVal.none ∈ [PyVal.none] :=
  ⟨rfl, fun h => PyVal.noConfusion h, List.mem_cons_self _ _⟩

/-- C2 (witness): the amended theorem applied to the empty group and to the
all-empty-display group `[None, ""]`. -/
theorem c2_empty_default_witness :
    longest_content [] (PyVal.int 0) = PyVal.int 0 ∧
    longest_content [PyVal.none, PyVal.str ("")] (PyVal.int 0) =
      firstNonNone [PyVal.none, PyVal.str ("")] :=
  ⟨(c2_empty_default_amended [PyVal.none, PyVal.str ("")] (PyVal.int 0)).1,
   (c2_empty_default_amended [PyVal.none, PyVal.str ("")] (PyVal.int 0)).2.1 (by simp)
     (by
       intro c hc
       rcases List.mem_cons.mp hc with rfl | hc2
       · exact Or.inr (Or.inl rfl)
       rcases List.mem_cons.mp hc2 with rfl | hc3
       · exact Or.inl rfl
       · cases hc3)⟩

/-- C3 (amended): when at least one filter list is non-empty, `find`
returns exactly the passing records sorted ascending by the pair of
last-occurrence indices of `id` in `hotelIds` and `destinationId` in
`destinationIds` (0 for identifiers that do not occur); for
duplicate-free filter lists this coincides with the claimed index, and
on a catalog with ids H1 H2 H3 the query `find("H3,H1", "none")` returns
exactly [H3, H1]. -/
theorem c3_find_ordering_amended :
    (∀ (hotels : List HRow) (hids dids : String),
      splitFilter hids ≠ [] ∨ splitFilter dids ≠ [] →
      ∃ res, find hotels hids dids = Except.ok res ∧
        res.Perm (hotels.filter (passes (splitFilter hids) (splitFilter dids))) ∧
        List.Sorted (findRel (splitFilter hids) (splitFilter dids)) res) ∧
    (find [⟨"H1", "D1", PyVal.none⟩, ⟨"H2", "D1", PyVal.none⟩, ⟨"H3", "D2", PyVal.none⟩]
        ("H3,H1") ("none") =
      Except.ok [⟨"H3", "D2", PyVal.none⟩, ⟨"H1", "D1", PyVal.none⟩]) := by
  constructor
  · intro hotels hids dids h
    have hcond : ¬ (splitFilter hids = [] ∧ splitFilter dids = []) := by tauto
    refine ⟨List.insertionSort (findRel (splitFilter hids) (splitFilter dids))
        (hotels.filter (passes (splitFilter hids) (splitFilter dids))), ?_, ?_, ?_⟩
    · simp only [find]
      rw [if_neg hcond, if_pos h]
    · exact List.perm_insertionSort _ _
    · haveI : IsTotal HRow (findRel (splitFilter hids) (splitFilter dids)) :=
        ⟨fun a b => by unfold findRel keyLE; omega⟩
      haveI : IsTrans HRow (findRel (splitFilter hids) (splitFilter dids)) :=
        ⟨fun a b c hab hbc => by unfold findRel keyLE at hab hbc ⊢; omega⟩
      exact List.sorted_insertionSort _ _
  · rfl

/-- C3 (counterexample): with the duplicate filter list `"H1,H2,H1"` the
code sorts by last-occurrence positions (H1 gets key 2, H2 gets key 1)
and returns [H2, H1], which is not ascending in the claimed
first-occurrence index key (H2 has key 1, H1 has key 0). -/
theorem c3_find_ordering_counterexample :
    find [⟨"H1", "D1", PyVal.none⟩, ⟨"H2", "D1", PyVal.none⟩] ("H1,H2,H1") ("none") =
      Except.ok [⟨"H2", "D1", PyVal.none⟩, ⟨"H1", "D1", PyVal.none⟩] ∧
    ¬ keyLE (specRowKey (splitFilter ("H1,H2,H1")) (splitFilter ("none")) ⟨"H2", "D1", PyVal.none⟩)
        (specRowKey (splitFilter ("H1,H2,H1")) (splitFilter ("none")) ⟨"H1", "D1", PyVal.none⟩) :=
  ⟨rfl, by decide⟩

/-- C3 (witness): the amended theorem applied to a concrete catalog and the
filter `"H2"`. -/
theorem c3_find_ordering_witness :
    (splitFilter ("H2") ≠ [] ∨ splitFilter ("none") ≠ []) ∧
    (∃ res, find [⟨"H1", "D1", PyVal.none⟩, ⟨"H2", "D1", PyVal.none⟩] ("H2") ("none") =
        Except.ok res ∧
      res.Perm ([⟨"H1", "D1", PyVal.none⟩, ⟨"H2", "D1", PyVal.none⟩].filter
        (passes (splitFilter ("H2")) (splitFilter ("none")))) ∧
      List.Sorted (findRel (splitFilter ("H2")) (splitFilter ("none"))) res) :=
  ⟨by decide, c3_find_ordering_amended.1 _ _ _ (by decide)⟩

/-- C4: `merge_location` applies the scalar `longest_content` policy
independently to each of lat, lng, address, city and country, and
merging two partial locations — one supplying only a city, the other
only a country — yields a merged location carrying both values (and, the
merge being a total function, raises no error). -/
theorem c4_location_independent (g : List Location) (d : PyVal) (c k : String) :
    ((merge_location g d).lat = longest_content (g.map Location.lat) d ∧
     (merge_location g d).lng = longest_content (g.map Location.lng) d ∧
     (merge_location g d).address = longest_content (g.map Location.address) d ∧
     (merge_location g d).city = longest_content (g.map Location.city) d ∧
     (merge_location g d).country = longest_content (g.map Location.country) d) ∧
    (merge_location
        [⟨PyVal.none, PyVal.none, PyVal.none, PyVal.str c, PyVal.none⟩,
         ⟨PyVal.none, PyVal.none, PyVal.none, PyVal.none, PyVal.str k⟩] d =
      ⟨PyVal.none, PyVal.none, PyVal.none, PyVal.str c, PyVal.str k⟩) := by
  refine ⟨⟨rfl, rfl, rfl, rfl, rfl⟩, ?_⟩
  simp only [merge_location, List.map]
  rw [lc_str_none, lc_none_str]
  rfl

/-- C5: each merged image sub-list is the group-order concatenation of the
members' lists keeping only the first occurrence of each distinct link,
hence no two entries of a merged list share a link, order is first-seen,
and for two contributors with an overlapping link the surviving entry
carries the first contributor's description. -/
theorem c5_image_dedup (g : List Images) :
    ((merge_images g).rooms = firstOccByLink ((g.map Images.rooms).flatten) ∧
     (merge_images g).site = firstOccByLink ((g.map Images.site).flatten) ∧
     (merge_images g).amenities = firstOccByLink ((g.map Images.amenities).flatten)) ∧
    (((merge_images g).rooms.map ImageRef.link).Nodup ∧
     ((merge_images g).site.map ImageRef.link).Nodup ∧
     ((merge_images g).amenities.map ImageRef.link).Nodup) ∧
    (merge_images
        [⟨[⟨"L", PyVal.str ("d1")⟩], [], []⟩, ⟨[⟨"L", PyVal.str ("d2")⟩], [], []⟩] =
      ⟨[⟨"L", PyVal.str ("d1")⟩], [], []⟩) := by
  refine ⟨⟨imageDedup_eq_firstOcc _, imageDedup_eq_firstOcc _, imageDedup_eq_firstOcc _⟩,
    ⟨?_, ?_, ?_⟩, rfl⟩ <;>
  · simp only [merge_images, imageDedup_eq_firstOcc]
    exact firstOcc_links_nodup _

/-- C6 (amended): the Acme and Patagonia adapters always produce
list-valued amenity and image collections on accepted inputs (empty when
the raw collection is null), but Paperflies stores its amenity sub-lists
unvalidated, so the claim fails for it (see the counterexample). -/
theorem c6_adapter_collections_amended (lookup : PyVal → Option String) (dto : PyVal) (h : ParsedHotel) :
    (Acme.parse lookup dto = Except.ok h →
      (∃ ls : List String, h.amenities_general = PyVal.list (ls.map PyVal.str)) ∧
      h.amenities_room = PyVal.list [] ∧ h.images = ⟨[], [], []⟩) ∧
    (Patagonia.parse dto = Except.ok h →
      h.amenities_general = PyVal.list [] ∧
      (∃ ls : List String, h.amenities_room = PyVal.list (ls.map PyVal.str))) := by
  constructor
  · intro hp
    obtain ⟨p, _, rfl⟩ := exceptMapOk mkAcme _ _ hp
    exact ⟨⟨p.general, rfl⟩, rfl, rfl⟩
  · intro hp
    obtain ⟨p, _, rfl⟩ := exceptMapOk mkPatagonia _ _ hp
    exact ⟨rfl, ⟨p.room, rfl⟩⟩

/-- C6 (counterexample): `Paperflies.parse` accepts a raw record whose
`amenities.general` is null and stores the null unchanged in the partial
record, placing null where a collection is expected. -/
theorem c6_adapter_collections_counterexample :
    (Paperflies.parse dtoPfNull).map ParsedHotel.amenities_general =
      Except.ok PyVal.none := rfl

/-- C6 (witness): the amended theorem applied to concrete accepted Acme and
Patagonia records with null raw collections. -/
theorem c6_adapter_collections_witness :
    ((∃ ls : List String, acmeH0.amenities_general = PyVal.list (ls.map PyVal.str)) ∧
      acmeH0.amenities_room = PyVal.list [] ∧ acmeH0.images = ⟨[], [], []⟩) ∧
    (pataH0.amenities_general = PyVal.list [] ∧
      (∃ ls : List String, pataH0.amenities_room = PyVal.list (ls.map PyVal.str))) :=
  ⟨(c6_adapter_collections_amended lookupStub dtoAcme0 acmeH0).1 rfl,
   (c6_adapter_collections_amended lookupStub dtoPata0 pataH0).2 rfl⟩

/-- C7: the claim is right and the code is wrong: with both filter lists
empty every record passes the (vacuous) conjunction and should be
returned, but `(not hotel_list or ...) & (not destination_list or ...)`
evaluates to the Python bool `True` and `self.hotels[True]` performs a
scalar column lookup that raises `KeyError`; the modelled `find` returns
that error on `("none", "none")`. -/
theorem c7_find_conjunction_keyerror : find [⟨"H1", "D1", PyVal.none⟩] ("none") ("none") =
    Except.error ("KeyError: True") := rfl

/-- C8: each merged amenity sub-list is the concatenation of all group
members' lists deduplicated by exact string equality: it contains no
duplicate strings and exactly the members of the concatenation; merging
a group whose members all carry identical sub-lists yields exactly that
list deduplicated (as a set, order being unspecified), and re-merging
the merged result yields the same set. -/
theorem c8_amenity_union (g : List Amenities) (l₁ l₂ : List String) :
    ((merge_amenities g).general.Nodup ∧ (merge_amenities g).room.Nodup) ∧
    ((∀ s, s ∈ (merge_amenities g).general ↔ s ∈ (g.map Amenities.general).flatten) ∧
     (∀ s, s ∈ (merge_amenities g).room ↔ s ∈ (g.map Amenities.room).flatten)) ∧
    (g ≠ [] → (∀ a ∈ g, a = ⟨l₁, l₂⟩) →
      ((∀ s, s ∈ (merge_amenities g).general ↔ s ∈ l₁.dedup) ∧
       (∀ s, s ∈ (merge_amenities g).room ↔ s ∈ l₂.dedup))) ∧
    ((∀ s, s ∈ (merge_amenities [merge_amenities g]).general ↔ s ∈ (merge_amenities g).general) ∧
     (∀ s, s ∈ (merge_amenities [merge_amenities g]).room ↔ s ∈ (merge_amenities g).room)) := by
  refine ⟨⟨List.nodup_dedup _, List.nodup_dedup _⟩,
    ⟨fun s => List.mem_dedup, fun s => List.mem_dedup⟩, ?_, ?_⟩
  · intro hne hall
    obtain ⟨a, g', rfl⟩ : ∃ a g', g = a :: g' := by
      cases g with
      | nil => exact absurd rfl hne
      | cons a g' => exact ⟨a, g', rfl⟩
    constructor <;>
    · intro s
      simp only [merge_amenities, List.mem_dedup, List.mem_flatten, List.mem_map]
      constructor
      · rintro ⟨t, ⟨b, hb, rfl⟩, hs⟩
        rw [hall b hb] at hs
        exact hs
      · intro hs
        refine ⟨_, ⟨a, List.mem_cons_self _ _, rfl⟩, ?_⟩
        rw [hall a (List.mem_cons_self _ _)]
        exact hs
  · constructor <;>
    · intro s
      simp [merge_amenities, List.mem_dedup]

/-- C8 (witness): the theorem applied to a two-member group with identical
amenity sub-lists. -/
theorem c8_amenity_union_witness :
    (∀ s, s ∈ (merge_amenities [⟨["a", "a"], ["b"]⟩, ⟨["a", "a"], ["b"]⟩]).general ↔
      s ∈ (["a", "a"] : List String).dedup) ∧
    (∀ s, s ∈ (merge_amenities [⟨["a", "a"], ["b"]⟩, ⟨["a", "a"], ["b"]⟩]).room ↔
      s ∈ (["b"] : List String).dedup) := by
  have h := (c8_amenity_union [⟨["a", "a"], ["b"]⟩, ⟨["a", "a"], ["b"]⟩] ["a", "a"] ["b"]).2.2.1
    (by simp)
    (by
      intro a ha
      rcases List.mem_cons.mp ha with rfl | ha2
      · rfl
      rcases List.mem_cons.mp ha2 with rfl | ha3
      · rfl
      · cases ha3)
  exact h

/-- C9 (amended): `acme_amenities_modify` is a pure function that, for
inputs longer than five characters consisting of letters, splits
camel-case word concatenations into lowercase space-separated tokens;
inputs of length at most five are only stripped and lowercased, so short
camel-case strings are not split (see the counterexample). -/
theorem c9_acme_camel_amended (r : String) (h5 : 5 < r.length)
    (halpha : ∀ c ∈ r.data, c.isAlpha = true) :
    acme_amenities_modify r =
      String.mk (joinWords ((camelWordsSpec r.data).map (List.map Char.toLower))) := by
  rw [acme_amenities_modify, if_neg (by omega)]
  have hne : r.data ≠ [] := by
    intro h
    rw [show r.length = r.data.length from rfl, h] at h5
    simp at h5
  obtain ⟨a, t, hat⟩ : ∃ a t, r.data = a :: t := by
    cases hd : r.data with
    | nil => exact absurd hd hne
    | cons a t => exact ⟨a, t, rfl⟩
  have hstrip : pyStrip (camelSplitChars r.data) = camelSplitChars r.data := by
    apply pyStrip_eq_self
    · intro c hc
      obtain ⟨t2, ht2⟩ := camelSplit_head a t
      rw [hat, ht2] at hc
      injection hc with hc
      subst hc
      exact alphaNotWS _ (halpha _ (by rw [hat]; exact List.mem_cons_self _ _))
    · intro c hc
      rw [camelSplit_getLast r.data hne] at hc
      have hmem : c ∈ r.data := by
        obtain ⟨hh, heq⟩ := List.mem_getLast?_eq_getLast (Option.mem_def.mpr hc)
        rw [heq]
        exact List.getLast_mem hh
      exact alphaNotWS c (halpha c hmem)
  rw [hstrip, camelSplit_join, pyLower_joinWords]

/-- C9 (counterexample): `"WiFi"` has a lowercase letter immediately
followed by an uppercase one, yet the code returns `"wifi"` rather than
the space-separated lowercase tokens `"wi fi"`, because of the
length-at-most-5 guard. -/
theorem c9_acme_camel_counterexample :
    acme_amenities_modify ("WiFi") = "wifi" ∧
    String.mk (joinWords ((camelWordsSpec ("WiFi").data).map (List.map Char.toLower))) =
      "wi fi" ∧
    ("wifi" : String) ≠ "wi fi" :=
  ⟨rfl, rfl, by decide⟩

/-- C9 (witness): the amended theorem applied to `"DryCleaning"`. -/
theorem c9_acme_camel_witness :
    acme_amenities_modify ("DryCleaning") =
      String.mk (joinWords ((camelWordsSpec ("DryCleaning").data).map (List.map Char.toLower))) :=
  c9_acme_camel_amended ("DryCleaning") (by decide) (by decide)

/-- C10: every adapter wraps the supplier's destination identifier in
`str(...)`, so a numeric destination id becomes its decimal string and
the parsed record's `destination_id` is a string by construction, and a
destination filter in `find` matches a record only when a filter entry
equals that string form exactly. -/
theorem c10_destination_string :
    (∀ (lookup : PyVal → Option String) (dto : PyVal) (h : ParsedHotel) (n : Int),
      dto.getKey ("DestinationId") = Except.ok (PyVal.int n) →
      Acme.parse lookup dto = Except.ok h → h.destination_id = toString n) ∧
    (∀ (dto : PyVal) (h : ParsedHotel) (n : Int),
      dto.getKey ("destination_id") = Except.ok (PyVal.int n) →
      Paperflies.parse dto = Except.ok h → h.destination_id = toString n) ∧
    (∀ (dto : PyVal) (h : ParsedHotel) (n : Int),
      dto.getKey ("destination") = Except.ok (PyVal.int n) →
      Patagonia.parse dto = Except.ok h → h.destination_id = toString n) ∧
    (∀ (hotels : List HRow) (hids dids : String) (res : List HRow) (row : HRow),
      find hotels hids dids = Except.ok res → row ∈ res → splitFilter dids ≠ [] →
      row.destination_id ∈ splitFilter dids) := by
  refine ⟨?_, ?_, ?_, ?_⟩
  · intro lookup dto h n hkey hp
    obtain ⟨p, hps, rfl⟩ := exceptMapOk mkAcme _ _ hp
    have hd := acmeParts_destv lookup dto p hps
    rw [hkey] at hd
    injection hd with hd
    show pyStr p.destv = toString n
    rw [← hd]
    rfl
  · intro dto h n hkey hp
    obtain ⟨p, hps, rfl⟩ := exceptMapOk mkPaperflies _ _ hp
    have hd := paperfliesParts_destv dto p hps
    rw [hkey] at hd
    injection hd with hd
    show pyStr p.destv = toString n
    rw [← hd]
    rfl
  · intro dto h n hkey hp
    obtain ⟨p, hps, rfl⟩ := exceptMapOk mkPatagonia _ _ hp
    have hd := patagoniaParts_destv dto p hps
    rw [hkey] at hd
    injection hd with hd
    show pyStr p.destv = toString n
    rw [← hd]
    rfl
  · intro hotels hids dids res row hf hr hne
    simp only [find] at hf
    rw [if_neg (fun hand => hne hand.2), if_pos (Or.inr hne)] at hf
    injection hf with hf
    subst hf
    have hmem :=
      (List.perm_insertionSort (findRel (splitFilter hids) (splitFilter dids)) _).mem_iff.mp hr
    have hps := (List.mem_filter.mp hmem).2
    simp only [passes, Bool.and_eq_true, Bool.or_eq_true] at hps
    rcases hps.2 with hempty | hcontains
    · exact absurd (List.isEmpty_iff.mp hempty) hne
    · simpa using hcontains

/-- C10 (witness): the theorem applied to the three concrete records with
integer destination id 5 and to a concrete `find` with destination
filter `"D1"`. -/
theorem c10_destination_string_witness :
    acmeH0.destination_id = toString (5 : Int) ∧
    pfH0.destination_id = toString (5 : Int) ∧
    pataH0.destination_id = toString (5 : Int) ∧
    (⟨"H1", "D1", PyVal.none⟩ : HRow).destination_id ∈ splitFilter ("D1") :=
  ⟨c10_destination_string.1 lookupStub dtoAcme0 acmeH0 5 rfl rfl,
   c10_destination_string.2.1 dtoPfNull pfH0 5 rfl rfl,
   c10_destination_string.2.2.1 dtoPata0 pataH0 5 rfl rfl,
   c10_destination_string.2.2.2 [⟨"H1", "D1", PyVal.none⟩] ("none") ("D1") [⟨"H1", "D1", PyVal.none⟩]
     ⟨"H1", "D1", PyVal.none⟩ rfl (List.mem_cons_self _ _) (by decide)⟩
